import Mathlib

/- Formal model of src/main.py (transaction-receipt field extraction):
   the regular-expression line rules, the date/time/amount normalisers,
   the per-line if/elif extraction loop, the session-level upload loop,
   and the tabular Amount coercion and total.  Regular expressions are
   embedded as explicit backtracking matchers that follow the Python
   engine's alternative order and greedy/backtracking behaviour on the
   concrete patterns of the source. -/

/-- Whitespace recognised by Python str.strip and the regex class \s
    (ASCII range; the inputs of interest contain no exotic whitespace). -/
def isPySpace (c : Char) : Bool :=
  c == ' ' || c == '\t' || c == '\n' || c == '\r' || c == '\x0b' || c == '\x0c'

/-- Python str.strip on a character list. -/
def pyStripChars (cs : List Char) : List Char :=
  ((cs.dropWhile isPySpace).reverse.dropWhile isPySpace).reverse

/-- Python str.strip. -/
def pyStrip (s : String) : String := String.mk (pyStripChars s.data)

/-- Python text.split("\n") on a character list. -/
def splitNewlines : List Char → List (List Char)
  | [] => [[]]
  | c :: rest =>
    if c == '\n' then [] :: splitNewlines rest
    else
      match splitNewlines rest with
      | h :: t => (c :: h) :: t
      | [] => [[c]]

/-- split_text_into_lines from src/main.py: split on newlines, strip each
    line, keep the non-empty ones. -/
def split_text_into_lines (text : String) : List String :=
  ((splitNewlines text.data).map fun l => pyStrip (String.mk l)).filter fun l => l ≠ ""

/- ---------------------------------------------------------------------
   The seven line-anchored label patterns, each of the form
   ^(alt1|alt2|...)\s?:?\s?(.+) .  A pattern is represented by its list
   of label alternatives, in the order they appear in the source. -/

def transtype_pattern : List String := ["Transaction Type", "Type"]

def notes_pattern : List String := ["Notes", "Note", "Purpose", "Reason"]

def transtime_pattern : List String :=
  ["Transaction Time", "Date and Time", "Date & Time", "Transaction Date"]

def transno_pattern : List String := ["Transaction No", "Transaction ID"]

def receiver_pattern : List String := ["To", "Receiver Name", "Send To"]

def sender_pattern : List String := ["From", "Sender Name", "Send From"]

def amount_data_pattern : List String := ["Amount", "Total Amount"]

/-- Consume one optional character (a `?` quantifier) when the flag asks
    for the consuming variant. -/
def dropOpt (p : Char → Bool) (b : Bool) (r : List Char) : Option (List Char) :=
  if b then
    match r with
    | c :: rest => if p c then some rest else none
    | [] => none
  else some r

/-- One backtracking alternative of `\s?:?\s?(.+)`: the three flags choose
    the consuming/empty variant of each optional; `(.+)` needs a non-empty
    remainder (lines never contain a newline). -/
def tryConsume (s1 c s2 : Bool) (r : List Char) : Option (List Char) :=
  (dropOpt isPySpace s1 r).bind fun r1 =>
    (dropOpt (fun x => x == ':') c r1).bind fun r2 =>
      (dropOpt isPySpace s2 r2).bind fun r3 =>
        if r3.isEmpty then none else some r3

/-- The greedy backtracking order of the Python engine on `\s?:?\s?`. -/
def sepCombos : List (Bool × Bool × Bool) :=
  [(true, true, true), (true, true, false), (true, false, true), (true, false, false),
   (false, true, true), (false, true, false), (false, false, true), (false, false, false)]

/-- group(2) of `\s?:?\s?(.+)` applied to the remainder after a label. -/
def sep2 (r : List Char) : Option (List Char) :=
  sepCombos.findSome? fun b => tryConsume b.1 b.2.1 b.2.2 r

/-- Match a literal label at the start of the text. -/
def dropLabel : List Char → List Char → Option (List Char)
  | [], r => some r
  | _ :: _, [] => none
  | a :: as, c :: cs => if c == a then dropLabel as cs else none

/-- One alternative of `^(...)` followed by `\s?:?\s?(.+)`. -/
def tryAlt (alt : String) (line : List Char) : Option (List Char) :=
  (dropLabel alt.data line).bind sep2

/-- re.search of `^(alt1|...|altn)\s?:?\s?(.+)` on a line; returns
    group(2) when the pattern matches (alternatives tried in order). -/
def searchLabel (alts : List String) (line : String) : Option String :=
  (alts.findSome? fun a => tryAlt a line.data).map String.mk

/- ---------------------------------------------------------------------
   extract_amount_only: the pattern -?\d*(?:,\d*)*(?:\.\d{2})? . -/

/-- Greedy `\d*`. -/
def takeDigits (cs : List Char) : List Char × List Char :=
  (cs.takeWhile Char.isDigit, cs.dropWhile Char.isDigit)

/-- Greedy `(?:,\d*)*` with a length fuel (each iteration consumes at
    least the comma). -/
def amountGroupsAux : Nat → List Char → List Char × List Char
  | 0, r => ([], r)
  | n + 1, r =>
    match r with
    | [] => ([], [])
    | c :: rest =>
      if c = ',' then
        let p := takeDigits rest
        let q := amountGroupsAux n p.2
        (c :: (p.1 ++ q.1), q.2)
      else ([], c :: rest)

def amountGroups (r : List Char) : List Char × List Char := amountGroupsAux r.length r

/-- The greedy match of `\d*(?:,\d*)*(?:\.\d{2})?` (the pattern after the
    optional sign) at the current position. -/
def amountBody (cs : List Char) : List Char :=
  let d := takeDigits cs
  let g := amountGroups d.2
  let f : List Char :=
    match g.2 with
    | c0 :: rest2 =>
      if c0 = '.' then
        match rest2 with
        | a :: b :: _ => if a.isDigit && b.isDigit then [c0, a, b] else []
        | _ => []
      else []
    | [] => []
  d.1 ++ (g.1 ++ f)

/-- The greedy match of `-?\d*(?:,\d*)*(?:\.\d{2})?` at position 0.
    Every component of the pattern is optional, so it matches (possibly
    emptily) at position 0 of every string; re.search therefore always
    returns this match and never scans further. -/
def amountToken (cs : List Char) : List Char :=
  match cs with
  | c :: rest => if c = '-' then c :: amountBody rest else amountBody (c :: rest)
  | [] => amountBody []

/-- re.search(amount_only_pattern, s): always succeeds (empty match at
    position 0 in the worst case). -/
def amount_only_search (s : String) : Option (List Char) := some (amountToken s.data)

/-- extract_amount_only from src/main.py: the matched group with every
    "-" removed and then stripped; the fallback branch of the source is
    unreachable because the search always succeeds. -/
def extract_amount_only (s : String) : String :=
  match amount_only_search s with
  | some m => pyStrip (String.mk (m.filter fun c => c != '-'))
  | none => s

/- ---------------------------------------------------------------------
   extract_date_time: date_pattern and time_pattern searches. -/

def isWordChar (c : Char) : Bool := c.isAlphanum || c == '_'

/-- Candidate splits for `\d{lo,hi}`, longest (greedy) first. -/
def digitChoices (lo hi : Nat) (cs : List Char) : List (List Char × List Char) :=
  ((List.range (hi + 1 - lo)).map fun i => hi - i).filterMap fun k =>
    let t := cs.take k
    if t.length == k && t.all Char.isDigit then some (t, cs.drop k) else none

/-- Candidate splits for `\w+`, longest (greedy) first. -/
def wordChoices (cs : List Char) : List (List Char × List Char) :=
  let n := (cs.takeWhile isWordChar).length
  ((List.range n).map fun i => n - i).filterMap fun k =>
    if k == 0 then none else some (cs.take k, cs.drop k)

/-- First alternative of date_pattern: digits(1-2), slash-or-dash,
    digits(1-2), slash-or-dash, digits(2-4). -/
def dateAlt1 (cs : List Char) : Option (List Char) :=
  (digitChoices 1 2 cs).findSome? fun p1 =>
    match p1.2 with
    | s1 :: r1 =>
      if s1 == '/' || s1 == '-' then
        (digitChoices 1 2 r1).findSome? fun p2 =>
          match p2.2 with
          | s2 :: r2 =>
            if s2 == '/' || s2 == '-' then
              (digitChoices 2 4 r2).findSome? fun p3 =>
                some (p1.1 ++ s1 :: (p2.1 ++ s2 :: p3.1))
            else none
          | [] => none
      else none
    | [] => none

/-- Second alternative of date_pattern: `\d{1,2} \w+ \d{4}`. -/
def dateAlt2 (cs : List Char) : Option (List Char) :=
  (digitChoices 1 2 cs).findSome? fun p1 =>
    match p1.2 with
    | c1 :: r1 =>
      if c1 == ' ' then
        (wordChoices r1).findSome? fun p2 =>
          match p2.2 with
          | c2 :: r2 =>
            if c2 == ' ' then
              (digitChoices 4 4 r2).findSome? fun p3 =>
                some (p1.1 ++ c1 :: (p2.1 ++ c2 :: p3.1))
            else none
          | [] => none
      else none
    | [] => none

/-- Third alternative of date_pattern: `\w+ \d{1,2}, \d{4}`. -/
def dateAlt3 (cs : List Char) : Option (List Char) :=
  (wordChoices cs).findSome? fun p1 =>
    match p1.2 with
    | c1 :: r1 =>
      if c1 == ' ' then
        (digitChoices 1 2 r1).findSome? fun p2 =>
          match p2.2 with
          | c2 :: c3 :: r2 =>
            if c2 == ',' && c3 == ' ' then
              (digitChoices 4 4 r2).findSome? fun p3 =>
                some (p1.1 ++ c1 :: (p2.1 ++ c2 :: c3 :: p3.1))
            else none
          | _ => none
      else none
    | [] => none

/-- The alternatives of date_pattern at one position, in pattern order. -/
def dateFirst (cs : List Char) : Option (List Char) :=
  dateAlt1 cs <|> dateAlt2 cs <|> dateAlt3 cs

/-- re.search(date_pattern, s): leftmost match. -/
def dateSearch : List Char → Option (List Char)
  | [] => none
  | c :: rest => dateFirst (c :: rest) <|> dateSearch rest

/-- Hour alternatives of the 12-hour branch: `(1[0-2]|0?[1-9])`. -/
def hour12Choices (cs : List Char) : List (List Char × List Char) :=
  (match cs with
   | a :: b :: r => if a == '1' && ('0' ≤ b && b ≤ '2') then [([a, b], r)] else []
   | _ => []) ++
  (match cs with
   | a :: b :: r => if a == '0' && ('1' ≤ b && b ≤ '9') then [([a, b], r)] else []
   | _ => []) ++
  (match cs with
   | a :: r => if '1' ≤ a && a ≤ '9' then [([a], r)] else []
   | _ => [])

/-- Hour alternatives of the 24-hour branch: `(2[0-3]|[01]?[0-9])`. -/
def hour24Choices (cs : List Char) : List (List Char × List Char) :=
  (match cs with
   | a :: b :: r => if a == '2' && ('0' ≤ b && b ≤ '3') then [([a, b], r)] else []
   | _ => []) ++
  (match cs with
   | a :: b :: r => if (a == '0' || a == '1') && b.isDigit then [([a, b], r)] else []
   | _ => []) ++
  (match cs with
   | a :: r => if a.isDigit then [([a], r)] else []
   | _ => [])

/-- `:[0-5][0-9]`. -/
def minutesAt (cs : List Char) : Option (List Char × List Char) :=
  match cs with
  | c :: m1 :: m2 :: r =>
    if c == ':' && ('0' ≤ m1 && m1 ≤ '5') && m2.isDigit then some ([c, m1, m2], r) else none
  | _ => none

/-- Optional `(?::[0-5][0-9])?`, greedy first. -/
def secondsChoices (cs : List Char) : List (List Char × List Char) :=
  (match minutesAt cs with
   | some p => [p]
   | none => []) ++ [([], cs)]

/-- Optional `\s?`, greedy first. -/
def spaceChoices (cs : List Char) : List (List Char × List Char) :=
  (match cs with
   | c :: r => if isPySpace c then [([c], r)] else []
   | _ => []) ++ [([], cs)]

/-- `\b` before the match; every alternative starts with a digit. -/
def boundaryBefore (prev : Option Char) : Bool :=
  match prev with
  | none => true
  | some c => !isWordChar c

/-- `\b` after the match; every alternative ends with a word character. -/
def boundaryAfter (rest : List Char) : Bool :=
  match rest with
  | [] => true
  | c :: _ => !isWordChar c

/-- 12-hour alternative of time_pattern at one position. -/
def time12At (cs : List Char) : Option (List Char) :=
  (hour12Choices cs).findSome? fun hp =>
    (minutesAt hp.2).bind fun mp =>
      (secondsChoices mp.2).findSome? fun sp =>
        (spaceChoices sp.2).findSome? fun wp =>
          match wp.2 with
          | a :: m :: r =>
            if (a == 'A' || a == 'P' || a == 'a' || a == 'p') && (m == 'M' || m == 'm')
                && boundaryAfter r then
              some (hp.1 ++ (mp.1 ++ (sp.1 ++ (wp.1 ++ [a, m]))))
            else none
          | _ => none

/-- 24-hour alternative of time_pattern at one position. -/
def time24At (cs : List Char) : Option (List Char) :=
  (hour24Choices cs).findSome? fun hp =>
    (minutesAt hp.2).bind fun mp =>
      (secondsChoices mp.2).findSome? fun sp =>
        if boundaryAfter sp.2 then some (hp.1 ++ (mp.1 ++ sp.1)) else none

def timeSearchAux : Option Char → List Char → Option (List Char)
  | _, [] => none
  | prev, c :: rest =>
    (if boundaryBefore prev then time12At (c :: rest) <|> time24At (c :: rest) else none) <|>
      timeSearchAux (some c) rest

/-- re.search(time_pattern, s): leftmost match respecting `\b`. -/
def timeSearch (cs : List Char) : Option (List Char) := timeSearchAux none cs

/- ---------------------------------------------------------------------
   Model of dateutil.parser.parse on the strings matched by date_pattern
   and time_pattern (the only strings the source feeds to it). -/

def digitsToNat (l : List Char) : Nat := l.foldl (fun a c => a * 10 + (c.toNat - 48)) 0

/-- Month numbers of the English month names known to dateutil's default
    parserinfo (full names, three-letter abbreviations, and Sept),
    case-insensitively. -/
def monthFromName (w : List Char) : Option Nat :=
  let l := String.mk (w.map Char.toLower)
  if l = "jan" ∨ l = "january" then some 1
  else if l = "feb" ∨ l = "february" then some 2
  else if l = "mar" ∨ l = "march" then some 3
  else if l = "apr" ∨ l = "april" then some 4
  else if l = "may" then some 5
  else if l = "jun" ∨ l = "june" then some 6
  else if l = "jul" ∨ l = "july" then some 7
  else if l = "aug" ∨ l = "august" then some 8
  else if l = "sep" ∨ l = "sept" ∨ l = "september" then some 9
  else if l = "oct" ∨ l = "october" then some 10
  else if l = "nov" ∨ l = "november" then some 11
  else if l = "dec" ∨ l = "december" then some 12
  else none

def isLeap (y : Nat) : Bool := y % 4 == 0 && (y % 100 != 0 || y % 400 == 0)

def daysInMonth (y m : Nat) : Nat :=
  if m == 2 then (if isLeap y then 29 else 28)
  else if m == 4 || m == 6 || m == 9 || m == 11 then 30
  else 31

/-- The year of the modelled run (dateutil resolves two-digit years
    relative to the current year; any run year in this half-century gives
    the same results on the inputs at issue). -/
def currentYear : Nat := 2026

/-- dateutil parserinfo.convertyear: a two-digit year is moved into the
    century within fifty years of the current year. -/
def convertyear (y : Nat) (centurySpecified : Bool) : Nat :=
  if y < 100 && !centurySpecified then
    let y2 := y + 2000
    if currentYear + 50 ≤ y2 then y2 - 100 else y2
  else y

structure YMD where
  y : Nat
  m : Nat
  d : Nat
deriving DecidableEq

/-- datetime validity (raises, hence none, outside these bounds). -/
def validYMD (y m d : Nat) : Option YMD :=
  if 1 ≤ y ∧ y ≤ 9999 ∧ 1 ≤ m ∧ m ≤ 12 ∧ 1 ≤ d ∧ d ≤ daysInMonth y m then some ⟨y, m, d⟩
  else none

/-- dateutil _ymd.resolve_ymd for three numeric tokens, no month name,
    yearfirst = dayfirst = False; a year index exists only for the third
    token (set when it has more than two digits), which does not change
    the positional resolution below. -/
def resolveNumeric (a b c : Nat) (centurySpecified : Bool) : Option YMD :=
  let t : Nat × Nat × Nat :=
    if 31 < a then (a, b, c)        -- year, month, day = a, b, c
    else if 12 < a then (c, b, a)   -- day, month, year = a, b, c
    else (c, a, b)                  -- month, day, year = a, b, c
  validYMD (convertyear t.1 centurySpecified) t.2.1 t.2.2

/-- Numeric-triple shape: digits, slash-or-dash, digits, slash-or-dash,
    digits. -/
def parseShape1 (cs : List Char) : Option YMD :=
  let t1 := cs.takeWhile Char.isDigit
  match cs.drop t1.length with
  | s1 :: r1 =>
    if (s1 == '/' || s1 == '-') && !t1.isEmpty then
      let t2 := r1.takeWhile Char.isDigit
      match r1.drop t2.length with
      | s2 :: r2 =>
        if (s2 == '/' || s2 == '-') && !t2.isEmpty then
          let t3 := r2.takeWhile Char.isDigit
          if !t3.isEmpty && (r2.drop t3.length).isEmpty then
            resolveNumeric (digitsToNat t1) (digitsToNat t2) (digitsToNat t3) (2 < t3.length)
          else none
        else none
      | [] => none
    else none
  | [] => none

/-- Day month-name year shape `\d{1,2} \w+ \d{4}`. -/
def parseShape2 (cs : List Char) : Option YMD :=
  let t1 := cs.takeWhile Char.isDigit
  match cs.drop t1.length with
  | c1 :: r1 =>
    if c1 == ' ' && !t1.isEmpty then
      let w := r1.takeWhile isWordChar
      match r1.drop w.length with
      | c2 :: r2 =>
        if c2 == ' ' then
          let t3 := r2.takeWhile Char.isDigit
          if !t3.isEmpty && (r2.drop t3.length).isEmpty then
            match monthFromName w with
            | some m => validYMD (convertyear (digitsToNat t3) (2 < t3.length)) m (digitsToNat t1)
            | none => none
          else none
        else none
      | [] => none
    else none
  | [] => none

/-- Month-name day, year shape `\w+ \d{1,2}, \d{4}`. -/
def parseShape3 (cs : List Char) : Option YMD :=
  let w := cs.takeWhile isWordChar
  match cs.drop w.length with
  | c1 :: r1 =>
    if c1 == ' ' && !w.isEmpty then
      let t2 := r1.takeWhile Char.isDigit
      match r1.drop t2.length with
      | c2 :: c3 :: r2 =>
        if c2 == ',' && c3 == ' ' && !t2.isEmpty then
          let t3 := r2.takeWhile Char.isDigit
          if !t3.isEmpty && (r2.drop t3.length).isEmpty then
            match monthFromName w with
            | some m => validYMD (convertyear (digitsToNat t3) (2 < t3.length)) m (digitsToNat t2)
            | none => none
          else none
        else none
      | _ => none
    else none
  | [] => none

/-- dateutil.parser.parse on a date_pattern match; none models the
    ValueError raised on an unparsable string. -/
def dateutilParse (cs : List Char) : Option YMD :=
  parseShape1 cs <|> parseShape2 cs <|> parseShape3 cs

structure HMS where
  h : Nat
  m : Nat
  s : Nat
deriving DecidableEq

/-- dateutil.parser.parse on a time_pattern match, yielding the
    time-of-day components (AM/PM folded into the hour). -/
def timeutilParse (cs : List Char) : Option HMS :=
  let t1 := cs.takeWhile Char.isDigit
  match cs.drop t1.length with
  | c1 :: r1 =>
    if c1 == ':' && !t1.isEmpty then
      let t2 := r1.takeWhile Char.isDigit
      let rest := r1.drop t2.length
      let p : Nat × List Char :=
        match rest with
        | ':' :: r2 =>
          let t3 := r2.takeWhile Char.isDigit
          (digitsToNat t3, r2.drop t3.length)
        | _ => (0, rest)
      let rest3 := p.2.dropWhile isPySpace
      let hr := digitsToNat t1
      match rest3 with
      | a :: _ =>
        if a == 'P' || a == 'p' then some ⟨if hr < 12 then hr + 12 else hr, digitsToNat t2, p.1⟩
        else if a == 'A' || a == 'a' then some ⟨if hr == 12 then 0 else hr, digitsToNat t2, p.1⟩
        else none
      | [] => some ⟨hr, digitsToNat t2, p.1⟩
    else none
  | [] => none

def pad2 (n : Nat) : String := if n < 10 then "0" ++ toString n else toString n

def pad4 (n : Nat) : String :=
  if n < 10 then "000" ++ toString n
  else if n < 100 then "00" ++ toString n
  else if n < 1000 then "0" ++ toString n
  else toString n

/-- strftime("%Y/%m/%d"). -/
def fmtDate (x : YMD) : String := pad4 x.y ++ "/" ++ pad2 x.m ++ "/" ++ pad2 x.d

/-- strftime("%H:%M:%S"). -/
def fmtTime (t : HMS) : String := pad2 t.h ++ ":" ++ pad2 t.m ++ ":" ++ pad2 t.s

/-- extract_date_time from src/main.py.  Both parses sit in one
    try-block: a parse failure of either component (modelled by the two
    `some none` arms) sends both results to "", as the except clause
    does; an absent match gives "" for that component only. -/
def extract_date_time (s : String) : String × String :=
  match (dateSearch s.data).map dateutilParse, (timeSearch s.data).map timeutilParse with
  | some none, _ => ("", "")
  | _, some none => ("", "")
  | dr, tr =>
    ((match dr with | some (some x) => fmtDate x | _ => ""),
     (match tr with | some (some t) => fmtTime t | _ => ""))

/- ---------------------------------------------------------------------
   extract_transaction_data: the per-line if/elif chain. -/

structure TransactionData where
  transaction_no : Option String
  transaction_date : Option String
  transaction_type : Option String
  sender_name : Option String
  amount : Option String
  receiver_name : Option String
  notes : Option String
deriving DecidableEq

def emptyTransactionData : TransactionData := ⟨none, none, none, none, none, none, none⟩

inductive FieldKind
  | date | number | ftype | amount | sender | receiver | note
deriving DecidableEq

def altsOf : FieldKind → List String
  | .date => transtime_pattern
  | .number => transno_pattern
  | .ftype => transtype_pattern
  | .amount => amount_data_pattern
  | .sender => sender_pattern
  | .receiver => receiver_pattern
  | .note => notes_pattern

/-- The order in which the source's if/elif chain tries the rules. -/
def priorityList : List FieldKind :=
  [.date, .number, .ftype, .amount, .sender, .receiver, .note]

def normalizeFor : FieldKind → String → String
  | .date, s => (extract_date_time s).1
  | .amount, s => extract_amount_only s
  | _, s => s

/-- The value the source stores when the given field's rule consumes the
    line: group(2), stripped, then field-specific normalisation. -/
def ruleValue (f : FieldKind) (line : String) : String :=
  normalizeFor f (pyStrip ((searchLabel (altsOf f) line).getD ""))

/-- The first rule, in priority order, whose pattern matches the line. -/
def classifyLine (line : String) : Option FieldKind :=
  priorityList.find? fun f => (searchLabel (altsOf f) line).isSome

def getField (d : TransactionData) : FieldKind → Option String
  | .date => d.transaction_date
  | .number => d.transaction_no
  | .ftype => d.transaction_type
  | .amount => d.amount
  | .sender => d.sender_name
  | .receiver => d.receiver_name
  | .note => d.notes

def setField (d : TransactionData) : FieldKind → String → TransactionData
  | .date, v => { d with transaction_date := some v }
  | .number, v => { d with transaction_no := some v }
  | .ftype, v => { d with transaction_type := some v }
  | .amount, v => { d with amount := some v }
  | .sender, v => { d with sender_name := some v }
  | .receiver, v => { d with receiver_name := some v }
  | .note, v => { d with notes := some v }

/-- One iteration of the for-loop of extract_transaction_data: the
    if/elif chain over the seven patterns, in source order. -/
def processLine (d : TransactionData) (line : String) : TransactionData :=
  match searchLabel transtime_pattern line with
  | some g2 => { d with transaction_date := some (extract_date_time (pyStrip g2)).1 }
  | none =>
  match searchLabel transno_pattern line with
  | some g2 => { d with transaction_no := some (pyStrip g2) }
  | none =>
  match searchLabel transtype_pattern line with
  | some g2 => { d with transaction_type := some (pyStrip g2) }
  | none =>
  match searchLabel amount_data_pattern line with
  | some g2 => { d with amount := some (extract_amount_only (pyStrip g2)) }
  | none =>
  match searchLabel sender_pattern line with
  | some g2 => { d with sender_name := some (pyStrip g2) }
  | none =>
  match searchLabel receiver_pattern line with
  | some g2 => { d with receiver_name := some (pyStrip g2) }
  | none =>
  match searchLabel notes_pattern line with
  | some g2 => { d with notes := some (pyStrip g2) }
  | none => d

/-- extract_transaction_data from src/main.py. -/
def extract_transaction_data (text : String) : TransactionData :=
  (split_text_into_lines text).foldl processLine emptyTransactionData

/- ---------------------------------------------------------------------
   The session-level upload loop of main(). -/

structure SessionDetail where
  data : TransactionData
  image_file : String
deriving DecidableEq

def processed_files (st : List SessionDetail) : List String := st.map (·.image_file)

/-- One run of the upload loop of main(): uploads are (filename,
    extracted text) pairs, none standing for an OCR failure; an empty
    text is falsy and takes the warning path.  The processed-file set is
    computed once, from the state at the start of the run. -/
def runBatch (st : List SessionDetail) (uploads : List (String × Option String)) :
    List SessionDetail :=
  uploads.foldl
    (fun acc u =>
      if u.1 ∈ processed_files st then acc
      else
        match u.2 with
        | some t => if t = "" then acc else acc ++ [⟨extract_transaction_data t, u.1⟩]
        | none => acc)
    st

/- ---------------------------------------------------------------------
   The tabular Amount coercion and total of main(). -/

/-- df["Amount"].replace(r"[^\d.]", "", regex=True) on one cell. -/
def cleanAmountStr (s : String) : String :=
  String.mk (s.data.filter fun c => c.isDigit || c == '.')

def digitsAll (l : List Char) : Bool := l.all Char.isDigit

def splitAtDot : List Char → List Char × Option (List Char)
  | [] => ([], none)
  | c :: rest =>
    if c == '.' then ([], some rest)
    else
      let p := splitAtDot rest
      (c :: p.1, p.2)

/-- Decimal-literal recognition: integer part, fraction digits and
    fraction length (a second dot or a digit-free string is
    unparsable). -/
def parseDecimalParts (s : String) : Option (Nat × Nat × Nat) :=
  let p := splitAtDot s.data
  match p.2 with
  | none => if digitsAll p.1 ∧ p.1 ≠ [] then some (digitsToNat p.1, 0, 0) else none
  | some fp =>
    if digitsAll p.1 ∧ digitsAll fp ∧ (p.1 ≠ [] ∨ fp ≠ []) then
      some (digitsToNat p.1, digitsToNat fp, fp.length)
    else none

/-- The exact value of a recognised decimal literal. -/
def ratOfParts (p : Nat × Nat × Nat) : ℚ := (p.1 : ℚ) + (p.2.1 : ℚ) / ((10 : ℚ) ^ p.2.2)

/-- Numeric parsing of a plain decimal literal, exact over ℚ. -/
def parseDecimal (s : String) : Option ℚ := (parseDecimalParts s).map ratOfParts

/-- pd.to_numeric(..., errors="coerce") on a cleaned cell: an absent
    cell or a parse failure becomes a missing value, never zero. -/
def to_numeric (a : Option String) : Option ℚ :=
  a.bind fun s => parseDecimal (cleanAmountStr s)

def amountColumn (st : List SessionDetail) : List (Option String) := st.map (·.data.amount)

/-- df["Amount"].sum(): missing entries are skipped. -/
def totalAmount (st : List SessionDetail) : ℚ :=
  ((amountColumn st).map to_numeric).foldl
    (fun acc v => match v with | some q => acc + q | none => acc) 0

/- ---------------------------------------------------------------------
   Spec-side helpers used to state the claims. -/

/-- The spec's name for the date normaliser: the date component of
    extract_date_time. -/
def normalizeDate (s : String) : String := (extract_date_time s).1

def stripCommas (s : String) : String := String.mk (s.data.filter fun c => c != ',')

/-- Signed decimal parsing, for stating what a value "parses to". -/
def parseSignedDecimal (s : String) : Option ℚ :=
  match s.data with
  | '-' :: rest => (parseDecimal (String.mk rest)).map fun q => -q
  | _ => parseDecimal s

/-- Rendering of the claim's amount grammar `\d{1,3}(,\d{3})*(\.\d{2})?`:
    comma-separated digit groups after the leading digits. -/
def renderGroups : List (List Char) → List Char
  | [] => []
  | g :: gs => ',' :: (g ++ renderGroups gs)

def fracRender : Option (Char × Char) → List Char
  | some p => ['.', p.1, p.2]
  | none => []

def amtRender (lead : List Char) (gs : List (List Char)) (fr : Option (Char × Char)) :
    List Char :=
  lead ++ (renderGroups gs ++ fracRender fr)

/-- The two fraction digits of the claim's grammar, when present. -/
def fracDigits : Option (Char × Char) → Prop
  | none => True
  | some q => q.1.isDigit = true ∧ q.2.isDigit = true

/-- The currency suffixes of the claim (MMK, Ks, Kyat), space-separated,
    or no suffix. -/
def currencySuffixes : List (List Char) :=
  [[], [' ', 'M', 'M', 'K'], [' ', 'K', 's'], [' ', 'K', 'y', 'a', 't']]

/-- The six-line end-to-end input of the spec. -/
def c6text : String :=
  "Transaction ID: TX12345\nDate and Time: 12 June 2024 14:30\nFrom: Jane Doe\nTo: John Smith\nAmount: 1,500.00 MMK\nNotes: Rent payment"

/- ---------------------------------------------------------------------
   Helper lemmas. -/

/-- Properties established for every possible result of findSome? hold of
    its result. -/
theorem findSome_forall {α β : Type} (f : α → Option β) (P : β → Prop)
    (h : ∀ a b, f a = some b → P b) :
    ∀ (l : List α) (b : β), l.findSome? f = some b → P b := by
  intro l
  induction l with
  | nil => intro b hb; simp [List.findSome?] at hb
  | cons a l ih =>
    intro b hb
    rw [List.findSome?_cons] at hb
    cases hf : f a with
    | some c =>
      rw [hf] at hb
      have hb' : some c = some b := hb
      injection hb' with e
      exact e ▸ h a c hf
    | none =>
      rw [hf] at hb
      have hb' : List.findSome? f l = some b := hb
      exact ih b hb'

theorem getField_setField_same (d : TransactionData) (f : FieldKind) (v : String) :
    getField (setField d f v) f = some v := by
  cases f <;> rfl

theorem getField_setField_other (d : TransactionData) (f g : FieldKind) (v : String)
    (h : f ≠ g) : getField (setField d g v) f = getField d f := by
  cases f <;> cases g <;> first | rfl | exact absurd rfl h

/-- The if/elif chain of the source sets exactly the field of the first
    matching rule, with that rule's normalised value. -/
theorem processLine_spec (d : TransactionData) (line : String) :
    processLine d line =
      match classifyLine line with
      | none => d
      | some f => setField d f (ruleValue f line) := by
  unfold processLine classifyLine priorityList
  cases h1 : searchLabel transtime_pattern line with
  | some g2 => simp [List.find?, altsOf, h1, ruleValue, normalizeFor, setField]
  | none =>
  cases h2 : searchLabel transno_pattern line with
  | some g2 => simp [List.find?, altsOf, h1, h2, ruleValue, normalizeFor, setField]
  | none =>
  cases h3 : searchLabel transtype_pattern line with
  | some g2 => simp [List.find?, altsOf, h1, h2, h3, ruleValue, normalizeFor, setField]
  | none =>
  cases h4 : searchLabel amount_data_pattern line with
  | some g2 => simp [List.find?, altsOf, h1, h2, h3, h4, ruleValue, normalizeFor, setField]
  | none =>
  cases h5 : searchLabel sender_pattern line with
  | some g2 => simp [List.find?, altsOf, h1, h2, h3, h4, h5, ruleValue, normalizeFor, setField]
  | none =>
  cases h6 : searchLabel receiver_pattern line with
  | some g2 =>
    simp [List.find?, altsOf, h1, h2, h3, h4, h5, h6, ruleValue, normalizeFor, setField]
  | none =>
  cases h7 : searchLabel notes_pattern line with
  | some g2 =>
    simp [List.find?, altsOf, h1, h2, h3, h4, h5, h6, h7, ruleValue, normalizeFor, setField]
  | none =>
    simp [List.find?, altsOf, h1, h2, h3, h4, h5, h6, h7]

theorem getField_processLine_other (d : TransactionData) (line : String) (f : FieldKind)
    (h : classifyLine line ≠ some f) :
    getField (processLine d line) f = getField d f := by
  rw [processLine_spec]
  cases hg : classifyLine line with
  | none => rfl
  | some g =>
    have hfg : f ≠ g := by
      intro e
      exact h (by rw [hg, e])
    simp only []
    exact getField_setField_other d f g _ hfg

/-- The last element of a list, if any. -/
def lastSome : List String → Option String
  | [] => none
  | a :: rest =>
    match lastSome rest with
    | some b => some b
    | none => some a

theorem lastSome_mem (l : List String) :
    ∀ a : String, lastSome l = some a → a ∈ l := by
  induction l with
  | nil => intro a h; simp [lastSome] at h
  | cons x l ih =>
    intro a h
    rw [lastSome] at h
    cases hl : lastSome l with
    | some b =>
      rw [hl] at h
      have e : b = a := by injection h
      exact e ▸ List.mem_cons_of_mem x (ih b hl)
    | none =>
      rw [hl] at h
      have e : x = a := by injection h
      exact e ▸ List.mem_cons_self x l

theorem getField_foldl (ls : List String) (d : TransactionData) (f : FieldKind) :
    getField (ls.foldl processLine d) f =
      match lastSome (ls.filter fun l => classifyLine l = some f) with
      | none => getField d f
      | some l => some (ruleValue f l) := by
  induction ls generalizing d with
  | nil => rfl
  | cons l ls ih =>
    rw [List.foldl_cons, ih]
    by_cases hc : classifyLine l = some f
    · rw [List.filter_cons_of_pos (by simpa using hc)]
      cases hl : lastSome (ls.filter fun x => classifyLine x = some f) with
      | some b => simp [lastSome, hl]
      | none =>
        simp only [lastSome, hl]
        rw [processLine_spec, hc]
        exact getField_setField_same d f _
    · rw [List.filter_cons_of_neg (by simpa using hc)]
      cases hl : lastSome (ls.filter fun x => classifyLine x = some f) with
      | some b => simp [hl]
      | none => simp only [hl]; exact getField_processLine_other d l f hc

/- ---------------------------------------------------------------------
   Claim theorems. -/

/-- C2: in line-anchored extraction a line is evaluated against the
    rules in the fixed priority order date → number → type → amount →
    sender → receiver → note; only the first matching rule consumes the
    line (its field is set to that rule's value) and every other field
    of the record is untouched, so one line contributes to at most one
    field. -/
theorem c2_priority_first_match (d : TransactionData) (line : String) :
    processLine d line =
      (match classifyLine line with
       | none => d
       | some f => setField d f (ruleValue f line)) ∧
    ∀ f : FieldKind, classifyLine line ≠ some f →
      getField (processLine d line) f = getField d f :=
  ⟨processLine_spec d line, fun f h => getField_processLine_other d line f h⟩

/-- Witness for C2 at a concrete line and field. -/
theorem c2_witness :
    processLine emptyTransactionData "From: Alice" =
      (match classifyLine "From: Alice" with
       | none => emptyTransactionData
       | some f => setField emptyTransactionData f (ruleValue f "From: Alice")) ∧
    getField (processLine emptyTransactionData "From: Alice") FieldKind.note =
      getField emptyTransactionData FieldKind.note :=
  ⟨(c2_priority_first_match emptyTransactionData "From: Alice").1,
   (c2_priority_first_match emptyTransactionData "From: Alice").2 FieldKind.note (by decide)⟩

/-- C10: when several lines are consumed by the same field's rule, the
    last such line (in document order) wins: the stored value is the
    normalised value of the last line whose first-matching rule is that
    field, and the field is absent when no line is consumed by it. -/
theorem c10_last_line_wins (text : String) (f : FieldKind) :
    getField (extract_transaction_data text) f =
      match lastSome ((split_text_into_lines text).filter fun l => classifyLine l = some f) with
      | none => none
      | some l => some (ruleValue f l) := by
  rw [extract_transaction_data, getField_foldl]
  cases lastSome ((split_text_into_lines text).filter fun l => classifyLine l = some f) with
  | none => cases f <;> rfl
  | some l => rfl

/-- C3: extraction is total (every Python exception point is caught
    inside extract_date_time, so the embedding is a total function); on
    text none of whose lines matches any rule the result is the record
    with every field absent, and the session record for such a document
    carries only the document id. -/
theorem c3_total_worst_case (text : String) (name : String)
    (h : ∀ l ∈ split_text_into_lines text, classifyLine l = none) :
    extract_transaction_data text = emptyTransactionData ∧
    (text ≠ "" → runBatch [] [(name, some text)] =
      [⟨emptyTransactionData, name⟩]) := by
  have hextract : extract_transaction_data text = emptyTransactionData := by
    rw [extract_transaction_data]
    have hgen : ∀ (ls : List String) (d : TransactionData),
        (∀ l ∈ ls, classifyLine l = none) → ls.foldl processLine d = d := by
      intro ls
      induction ls with
      | nil => intro d _; rfl
      | cons l ls ih =>
        intro d hh
        rw [List.foldl_cons]
        have h1 : classifyLine l = none := hh l (List.mem_cons_self l ls)
        have h2 : processLine d l = d := by rw [processLine_spec, h1]
        rw [h2]
        exact ih d fun x hx => hh x (List.mem_cons_of_mem l hx)
    exact hgen _ _ h
  refine ⟨hextract, fun ht => ?_⟩
  simp [runBatch, processed_files, List.foldl, ht, hextract]

/-- Witness for C3 at a concrete adversarial text. -/
theorem c3_witness :
    extract_transaction_data "???" = emptyTransactionData ∧
    runBatch [] [("a.png", some "???")] = [⟨emptyTransactionData, "a.png"⟩] :=
  ⟨(c3_total_worst_case "???" "a.png" (by decide)).1,
   (c3_total_worst_case "???" "a.png" (by decide)).2 (by decide)⟩

/-- C1 counterexample: on "—1,234.50 MMK" (em-dash sign) the amount
    regex matches the empty string at position 0, so extract_amount_only
    returns "", whose comma-stripped form does not parse to -1234.50. -/
theorem c1_counterexample :
    extract_amount_only "—1,234.50 MMK" = "" ∧
    parseSignedDecimal (stripCommas (extract_amount_only "—1,234.50 MMK")) ≠
      some (-(2469 / 2 : ℚ)) := by
  constructor
  · decide
  · have h0 : extract_amount_only "—1,234.50 MMK" = "" := by decide
    rw [h0]
    have h1 : parseSignedDecimal (stripCommas "") = none := by
      have h2 : stripCommas "" = "" := by decide
      rw [h2]
      have h3 : parseDecimalParts "" = none := by decide
      show parseDecimal "" = none
      rw [parseDecimal, h3]
      rfl
    rw [h1]
    intro h
    cases h

/-- C8 counterexample: on the digit-free input "abc" the function
    returns "" (the empty match at position 0), not the original trimmed
    input. -/
theorem c8_counterexample :
    extract_amount_only "abc" = "" ∧ extract_amount_only "abc" ≠ "abc" := by decide

/-- C4 invariant of the claim: no field of an extracted record holds the
    empty string. -/
def noEmptyFieldValues (d : TransactionData) : Prop :=
  ∀ f : FieldKind, getField d f ≠ some ""

/-- C4 counterexample: the line "Amount: abc" stores the empty string in
    the Amount field (the amount regex matches emptily on digit-free
    input), so absence is not the only representation of missing. -/
theorem c4_counterexample :
    ¬ noEmptyFieldValues (extract_transaction_data "Amount: abc") := by
  intro h
  exact h FieldKind.amount (by decide)

/-- C5 counterexample: two uploads with the same filename inside one
    batch are both appended — the processed-file set is computed before
    the loop — so the second ingest of a duplicate documentId does not
    leave the dataset unchanged and documentId uniqueness fails. -/
theorem c5_counterexample :
    (runBatch [] [("a.png", some "From: A"), ("a.png", some "From: B")]).length = 2 ∧
    processed_files (runBatch [] [("a.png", some "From: A"), ("a.png", some "From: B")]) =
      ["a.png", "a.png"] := by decide

/-- C6 counterexample: on the six-line input the Amount value is
    "1,500.00" — extract_amount_only removes the sign but keeps the
    grouping comma — not "1500.00". -/
theorem c6_counterexample :
    (extract_transaction_data c6text).amount = some "1,500.00" ∧
    (extract_transaction_data c6text).amount ≠ some "1500.00" := by decide

/-- C6 amended: the six-line input extracts to TX12345 / 2024/06/12 /
    Jane Doe / John Smith / Rent payment as claimed, but with Amount
    "1,500.00" (grouping comma retained). -/
theorem c6_amended :
    extract_transaction_data c6text =
      { transaction_no := some "TX12345", transaction_date := some "2024/06/12",
        transaction_type := none, sender_name := some "Jane Doe",
        amount := some "1,500.00", receiver_name := some "John Smith",
        notes := some "Rent payment" } := by decide

/-- C7 counterexample: normalizeDate is not idempotent on its own
    canonical output even though that output is parseable: for
    x = "12 June 2024" the double application differs from the single
    one. -/
theorem c7_counterexample :
    ¬ (normalizeDate (normalizeDate "12 June 2024") = normalizeDate "12 June 2024") := by
  decide

/-- C7 amended: the canonical output "2024/06/12" of x = "12 June 2024"
    is re-matched only from its second year digit ("24/06/12"), which
    dateutil reads as day 24, month 06, year 2012; re-normalising the
    canonical form therefore yields "2012/06/24", not the fixed point the
    claim asserts. -/
theorem c7_amended :
    normalizeDate "12 June 2024" = "2024/06/12" ∧
    normalizeDate "2024/06/12" = "2012/06/24" := by decide

/- ---------------------------------------------------------------------
   Lemmas on the amount scanner (claims C1 and C8). -/

/-- The head of the list, if any, fails the predicate. -/
def headStops (p : Char → Bool) : List Char → Prop
  | [] => True
  | c :: _ => p c = false

theorem headStops_of_all (p : Char → Bool) (l : List Char) (h : ∀ c ∈ l, p c = false) :
    headStops p l := by
  cases l with
  | nil => trivial
  | cons c cs => exact h c (List.mem_cons_self c cs)

theorem takeWhile_append_stop (p : Char → Bool) (g t : List Char)
    (hg : ∀ c ∈ g, p c = true) (ht : headStops p t) :
    (g ++ t).takeWhile p = g ∧ (g ++ t).dropWhile p = t := by
  induction g with
  | nil =>
    simp only [List.nil_append]
    cases t with
    | nil => exact ⟨rfl, rfl⟩
    | cons c cs =>
      have hc : p c = false := ht
      constructor
      · simp [List.takeWhile_cons, hc]
      · simp [List.dropWhile_cons, hc]
  | cons a g ih =>
    have ha : p a = true := hg a (List.mem_cons_self a g)
    have ih' := ih fun c hc => hg c (List.mem_cons_of_mem a hc)
    constructor
    · simp [List.takeWhile_cons, ha, ih'.1]
    · simp [List.dropWhile_cons, ha, ih'.2]

theorem takeDigits_append (g t : List Char) (hg : ∀ c ∈ g, c.isDigit = true)
    (ht : headStops Char.isDigit t) : takeDigits (g ++ t) = (g, t) := by
  have h := takeWhile_append_stop Char.isDigit g t hg ht
  simp [takeDigits, h.1, h.2]

/-- The head of the list, if any, can continue neither a digit run nor a
    comma group. -/
def stopsGroups : List Char → Prop
  | [] => True
  | c :: _ => c.isDigit = false ∧ c ≠ ','

theorem headStops_of_stopsGroups (t : List Char) (h : stopsGroups t) :
    headStops Char.isDigit t := by
  cases t with
  | nil => trivial
  | cons c cs => exact h.1

theorem stops_renderGroups_append (gs : List (List Char)) (t : List Char)
    (h : stopsGroups t) : headStops Char.isDigit (renderGroups gs ++ t) := by
  cases gs with
  | nil => exact headStops_of_stopsGroups t h
  | cons g gs =>
    show Char.isDigit ',' = false
    decide

theorem amountGroupsAux_render (gs : List (List Char)) :
    ∀ (n : Nat) (rest : List Char),
      (∀ g ∈ gs, ∀ c ∈ g, c.isDigit = true) →
      stopsGroups rest →
      (renderGroups gs).length ≤ n →
      amountGroupsAux n (renderGroups gs ++ rest) = (renderGroups gs, rest) := by
  induction gs with
  | nil =>
    intro n rest _ hr _
    cases n with
    | zero => rfl
    | succ m =>
      cases rest with
      | nil => rfl
      | cons c cs =>
        show amountGroupsAux (m + 1) (c :: cs) = ([], c :: cs)
        simp only [amountGroupsAux]
        rw [if_neg hr.2]
  | cons g gs ih =>
    intro n rest hg hr hn
    cases n with
    | zero => simp [renderGroups] at hn
    | succ m =>
      have hgd : ∀ c ∈ g, c.isDigit = true := hg g (List.mem_cons_self g gs)
      have hstop : headStops Char.isDigit (renderGroups gs ++ rest) :=
        stops_renderGroups_append gs rest hr
      have htd : takeDigits (g ++ (renderGroups gs ++ rest)) = (g, renderGroups gs ++ rest) :=
        takeDigits_append g _ hgd hstop
      have hlen : (renderGroups gs).length ≤ m := by
        rw [renderGroups, List.length_cons, List.length_append] at hn
        omega
      have hih : amountGroupsAux m (renderGroups gs ++ rest) = (renderGroups gs, rest) :=
        ih m rest (fun g' hg' => hg g' (List.mem_cons_of_mem g hg')) hr hlen
      show amountGroupsAux (m + 1) ((',' :: (g ++ renderGroups gs)) ++ rest) =
        (',' :: (g ++ renderGroups gs), rest)
      rw [List.cons_append, List.append_assoc]
      simp only [amountGroupsAux]
      rw [if_pos trivial]
      simp [htd, hih]

/-- The head of the list, if any, can continue no component of the
    amount pattern. -/
def stopsAmount : List Char → Prop
  | [] => True
  | c :: _ => c.isDigit = false ∧ c ≠ ',' ∧ c ≠ '.'

theorem stopsAmount_currency (sfx : List Char) (h : sfx ∈ currencySuffixes) :
    stopsAmount sfx := by
  simp only [currencySuffixes, List.mem_cons, List.not_mem_nil, or_false] at h
  rcases h with rfl | rfl | rfl | rfl
  · trivial
  · exact ⟨by decide, by decide, by decide⟩
  · exact ⟨by decide, by decide, by decide⟩
  · exact ⟨by decide, by decide, by decide⟩

theorem stopsGroups_frac (fr : Option (Char × Char)) (sfx : List Char)
    (hsfx : stopsAmount sfx) : stopsGroups (fracRender fr ++ sfx) := by
  cases fr with
  | some q => exact ⟨by decide, by decide⟩
  | none =>
    cases sfx with
    | nil => trivial
    | cons c cs => exact ⟨hsfx.1, hsfx.2.1⟩

theorem amountGroups_render (gs : List (List Char)) (rest : List Char)
    (hg : ∀ g ∈ gs, ∀ c ∈ g, c.isDigit = true) (hr : stopsGroups rest) :
    amountGroups (renderGroups gs ++ rest) = (renderGroups gs, rest) := by
  unfold amountGroups
  exact amountGroupsAux_render gs _ rest hg hr (by rw [List.length_append]; omega)

/-- amountBody on a rendered amount followed by a stopping suffix
    consumes exactly the rendered amount. -/
theorem amountBody_render (lead : List Char) (gs : List (List Char))
    (fr : Option (Char × Char)) (sfx : List Char)
    (hld : ∀ c ∈ lead, c.isDigit = true)
    (hgs : ∀ g ∈ gs, ∀ c ∈ g, c.isDigit = true)
    (hfr : fracDigits fr) (hsfx : stopsAmount sfx) :
    amountBody (amtRender lead gs fr ++ sfx) = amtRender lead gs fr := by
  have hstop1 : headStops Char.isDigit (renderGroups gs ++ (fracRender fr ++ sfx)) :=
    stops_renderGroups_append gs _ (stopsGroups_frac fr sfx hsfx)
  have htd : takeDigits (lead ++ (renderGroups gs ++ (fracRender fr ++ sfx))) =
      (lead, renderGroups gs ++ (fracRender fr ++ sfx)) :=
    takeDigits_append lead _ hld hstop1
  have hgr : amountGroups (renderGroups gs ++ (fracRender fr ++ sfx)) =
      (renderGroups gs, fracRender fr ++ sfx) :=
    amountGroups_render gs _ hgs (stopsGroups_frac fr sfx hsfx)
  show amountBody ((lead ++ (renderGroups gs ++ fracRender fr)) ++ sfx) = _
  rw [List.append_assoc, List.append_assoc]
  unfold amountBody
  simp only [htd, hgr]
  cases fr with
  | some q =>
    show lead ++ (renderGroups gs ++
        (if ('.' : Char) = '.' then
          (if q.1.isDigit && q.2.isDigit then ['.', q.1, q.2] else []) else [])) = _
    rw [if_pos rfl, if_pos (by rw [hfr.1, hfr.2]; rfl)]
    rfl
  | none =>
    cases sfx with
    | nil => rfl
    | cons c cs =>
      show lead ++ (renderGroups gs ++
          (if c = '.' then
            (match cs with
             | a :: b :: _ => if a.isDigit && b.isDigit then [c, a, b] else []
             | _ => []) else [])) = _
      rw [if_neg hsfx.2.2]
      rfl

theorem amountBody_head_stop (c : Char) (rest : List Char)
    (h1 : c.isDigit = false) (h2 : c ≠ ',') (h3 : c ≠ '.') :
    amountBody (c :: rest) = [] := by
  have htd : takeDigits (c :: rest) = ([], c :: rest) := by
    simp [takeDigits, List.takeWhile_cons, List.dropWhile_cons, h1]
  have hg : amountGroups (c :: rest) = ([], c :: rest) := by
    simp only [amountGroups, List.length_cons, amountGroupsAux]
    rw [if_neg h2]
  unfold amountBody
  simp only [htd, hg]
  rw [if_neg h3]
  rfl

/-- Every character of a rendered amount is a digit, a comma or a dot. -/
theorem mem_renderGroups (gs : List (List Char)) (c : Char) :
    c ∈ renderGroups gs → c = ',' ∨ ∃ g ∈ gs, c ∈ g := by
  induction gs with
  | nil => intro h; cases h
  | cons g gs ih =>
    intro h
    rw [renderGroups] at h
    rcases List.mem_cons.mp h with h | h
    · exact Or.inl h
    · rcases List.mem_append.mp h with h | h
      · exact Or.inr ⟨g, List.mem_cons_self g gs, h⟩
      · rcases ih h with h | ⟨g', hg', hc⟩
        · exact Or.inl h
        · exact Or.inr ⟨g', List.mem_cons_of_mem g hg', hc⟩

theorem amtRender_chars (lead : List Char) (gs : List (List Char))
    (fr : Option (Char × Char))
    (hld : ∀ c ∈ lead, c.isDigit = true) (hgs : ∀ g ∈ gs, ∀ c ∈ g, c.isDigit = true)
    (hfr : fracDigits fr) :
    ∀ c ∈ amtRender lead gs fr, c.isDigit = true ∨ c = ',' ∨ c = '.' := by
  intro c hc
  rw [amtRender] at hc
  rcases List.mem_append.mp hc with h | h
  · exact Or.inl (hld c h)
  · rcases List.mem_append.mp h with h | h
    · rcases mem_renderGroups gs c h with h | ⟨g, hg, hcg⟩
      · exact Or.inr (Or.inl h)
      · exact Or.inl (hgs g hg c hcg)
    · cases fr with
      | none => cases h
      | some q =>
        rcases List.mem_cons.mp h with h | h
        · exact Or.inr (Or.inr h)
        · rcases List.mem_cons.mp h with h | h
          · exact Or.inl (h ▸ hfr.1)
          · rcases List.mem_cons.mp h with h | h
            · exact Or.inl (h ▸ hfr.2)
            · cases h

theorem digit_not_dash (c : Char) (h : c.isDigit = true) : c ≠ '-' := by
  intro e
  rw [e] at h
  exact absurd h (by decide)

theorem digit_not_space (c : Char) (h : c.isDigit = true) : isPySpace c = false := by
  by_contra hs
  have hs' : isPySpace c = true := by
    cases hps : isPySpace c
    · exact absurd hps hs
    · rfl
  unfold isPySpace at hs'
  simp only [Bool.or_eq_true, beq_iff_eq] at hs'
  rcases hs' with ((((e | e) | e) | e) | e) | e <;> (subst e; exact absurd h (by decide))

theorem amtRender_no_dash (lead : List Char) (gs : List (List Char))
    (fr : Option (Char × Char))
    (hld : ∀ c ∈ lead, c.isDigit = true) (hgs : ∀ g ∈ gs, ∀ c ∈ g, c.isDigit = true)
    (hfr : fracDigits fr) :
    (amtRender lead gs fr).filter (fun c => c != '-') = amtRender lead gs fr := by
  rw [List.filter_eq_self]
  intro c hc
  rcases amtRender_chars lead gs fr hld hgs hfr c hc with h | h | h
  · simpa using digit_not_dash c h
  · subst h; decide
  · subst h; decide

theorem dropWhile_eq_self_of_stop (p : Char → Bool) (l : List Char) (h : headStops p l) :
    l.dropWhile p = l := by
  cases l with
  | nil => rfl
  | cons c cs =>
    have hc : p c = false := h
    simp [List.dropWhile_cons, hc]

theorem pyStripChars_eq_self (l : List Char) (h : ∀ c ∈ l, isPySpace c = false) :
    pyStripChars l = l := by
  unfold pyStripChars
  rw [dropWhile_eq_self_of_stop _ _ (headStops_of_all _ _ h),
    dropWhile_eq_self_of_stop _ _
      (headStops_of_all _ _ fun c hc => h c (List.mem_reverse.mp hc)),
    List.reverse_reverse]

theorem amtRender_no_space (lead : List Char) (gs : List (List Char))
    (fr : Option (Char × Char))
    (hld : ∀ c ∈ lead, c.isDigit = true) (hgs : ∀ g ∈ gs, ∀ c ∈ g, c.isDigit = true)
    (hfr : fracDigits fr) :
    ∀ c ∈ amtRender lead gs fr, isPySpace c = false := by
  intro c hc
  rcases amtRender_chars lead gs fr hld hgs hfr c hc with h | h | h
  · exact digit_not_space c h
  · subst h; decide
  · subst h; decide

/-- C1 amended: on the claim's amount grammar (1-3 leading digits, comma
    groups of three digits, optional two-digit fraction) followed by an
    optional currency token, extract_amount_only returns exactly the
    numeric substring with grouping commas retained; a leading ASCII
    minus sign is deleted rather than preserved (the magnitude is
    returned), and a leading em-dash is not part of the pattern at all:
    the match at position 0 is then empty and the result is the empty
    string. -/
theorem c1_amended (lead : List Char) (gs : List (List Char)) (fr : Option (Char × Char))
    (sfx : List Char)
    (h1 : lead ≠ [] ∧ lead.length ≤ 3 ∧ ∀ c ∈ lead, c.isDigit = true)
    (h2 : ∀ g ∈ gs, g.length = 3 ∧ ∀ c ∈ g, c.isDigit = true)
    (h3 : fracDigits fr)
    (h4 : sfx ∈ currencySuffixes) :
    extract_amount_only (String.mk (amtRender lead gs fr ++ sfx)) =
      String.mk (amtRender lead gs fr) ∧
    extract_amount_only (String.mk ('-' :: (amtRender lead gs fr ++ sfx))) =
      String.mk (amtRender lead gs fr) ∧
    extract_amount_only (String.mk ('—' :: (amtRender lead gs fr ++ sfx))) = "" := by
  obtain ⟨hne, _, hld⟩ := h1
  have hgs : ∀ g ∈ gs, ∀ c ∈ g, c.isDigit = true := fun g hg => (h2 g hg).2
  have hsfx : stopsAmount sfx := stopsAmount_currency sfx h4
  have hbody : amountBody (amtRender lead gs fr ++ sfx) = amtRender lead gs fr :=
    amountBody_render lead gs fr sfx hld hgs h3 hsfx
  have hclean : (amtRender lead gs fr).filter (fun c => c != '-') = amtRender lead gs fr :=
    amtRender_no_dash lead gs fr hld hgs h3
  have hstrip : pyStripChars (amtRender lead gs fr) = amtRender lead gs fr :=
    pyStripChars_eq_self _ (amtRender_no_space lead gs fr hld hgs h3)
  have htok : amountToken (amtRender lead gs fr ++ sfx) = amtRender lead gs fr := by
    obtain ⟨c0, cl, hL⟩ : ∃ c0 cl, lead = c0 :: cl := by
      cases lead with
      | nil => exact absurd rfl hne
      | cons a b => exact ⟨a, b, rfl⟩
    subst hL
    have hc0 : c0.isDigit = true := hld c0 (List.mem_cons_self c0 cl)
    have he : amtRender (c0 :: cl) gs fr ++ sfx =
        c0 :: (cl ++ (renderGroups gs ++ fracRender fr) ++ sfx) := by
      rw [amtRender, List.cons_append, List.cons_append]
    rw [he, amountToken, if_neg (digit_not_dash c0 hc0)]
    rw [← he]
    exact hbody
  refine ⟨?_, ?_, ?_⟩
  · show pyStrip (String.mk ((amountToken (amtRender lead gs fr ++ sfx)).filter
      fun c => c != '-')) = _
    rw [htok, hclean]
    show String.mk (pyStripChars (amtRender lead gs fr)) = _
    rw [hstrip]
  · show pyStrip (String.mk ((amountToken ('-' :: (amtRender lead gs fr ++ sfx))).filter
      fun c => c != '-')) = _
    rw [amountToken, if_pos rfl]
    rw [show ('-' :: amountBody (amtRender lead gs fr ++ sfx)).filter (fun c => c != '-')
        = (amountBody (amtRender lead gs fr ++ sfx)).filter (fun c => c != '-') by
      simp [List.filter_cons]]
    rw [hbody, hclean]
    show String.mk (pyStripChars (amtRender lead gs fr)) = _
    rw [hstrip]
  · show pyStrip (String.mk ((amountToken ('—' :: (amtRender lead gs fr ++ sfx))).filter
      fun c => c != '-')) = _
    rw [amountToken, if_neg (by decide)]
    rw [amountBody_head_stop '—' _ (by decide) (by decide) (by decide)]
    rfl

/-- Witness for C1 at the amount "1,234.50" with suffix " MMK". -/
theorem c1_witness :
    extract_amount_only
        (String.mk (amtRender ['1'] [['2', '3', '4']] (some ('5', '0')) ++ [' ', 'M', 'M', 'K'])) =
      String.mk (amtRender ['1'] [['2', '3', '4']] (some ('5', '0'))) ∧
    extract_amount_only
        (String.mk ('-' :: (amtRender ['1'] [['2', '3', '4']] (some ('5', '0')) ++ [' ', 'M', 'M', 'K']))) =
      String.mk (amtRender ['1'] [['2', '3', '4']] (some ('5', '0'))) :=
  ⟨(c1_amended ['1'] [['2', '3', '4']] (some ('5', '0')) [' ', 'M', 'M', 'K']
      (by refine ⟨by decide, by decide, ?_⟩; decide) (by decide) ⟨rfl, rfl⟩ (by decide)).1,
   (c1_amended ['1'] [['2', '3', '4']] (some ('5', '0')) [' ', 'M', 'M', 'K']
      (by refine ⟨by decide, by decide, ?_⟩; decide) (by decide) ⟨rfl, rfl⟩ (by decide)).2.1⟩

theorem amountBody_none (cs : List Char)
    (h : ∀ c ∈ cs, c.isDigit = false ∧ c ≠ ',') :
    amountBody cs = [] := by
  cases cs with
  | nil => rfl
  | cons c rest =>
    obtain ⟨h1, h2⟩ := h c (List.mem_cons_self c rest)
    by_cases h3 : c = '.'
    · have htd : takeDigits (c :: rest) = ([], c :: rest) := by
        simp [takeDigits, List.takeWhile_cons, List.dropWhile_cons, h1]
      have hg : amountGroups (c :: rest) = ([], c :: rest) := by
        simp only [amountGroups, List.length_cons, amountGroupsAux]
        rw [if_neg h2]
      unfold amountBody
      simp only [htd, hg]
      rw [if_pos h3]
      cases rest with
      | nil => rfl
      | cons a rest2 =>
        cases rest2 with
        | nil => rfl
        | cons b rest3 =>
          have ha : a.isDigit = false := (h a (by simp)).1
          show [] ++ ([] ++ (if a.isDigit && b.isDigit then [c, a, b] else [])) = []
          rw [ha]
          simp
    · exact amountBody_head_stop c rest h1 h2 h3

/-- C8 amended: extract_amount_only never raises and the search always
    succeeds (the else branch of the source is dead code), but on input
    with no digits and no commas the function returns the empty string —
    the empty match at position 0 — rather than the original trimmed
    input. -/
theorem c8_amended (s : String) (h : ∀ c ∈ s.data, c.isDigit = false ∧ c ≠ ',') :
    extract_amount_only s = "" ∧ (amount_only_search s).isSome = true := by
  refine ⟨?_, rfl⟩
  show pyStrip (String.mk ((amountToken s.data).filter fun c => c != '-')) = ""
  have hT : (amountToken s.data).filter (fun c => c != '-') = [] := by
    cases hd : s.data with
    | nil => rfl
    | cons c rest =>
      have hcs : ∀ x ∈ c :: rest, x.isDigit = false ∧ x ≠ ',' := by
        intro x hx
        exact h x (by rw [hd]; exact hx)
      have hrest : ∀ x ∈ rest, x.isDigit = false ∧ x ≠ ',' := by
        intro x hx
        exact hcs x (List.mem_cons_of_mem c hx)
      rw [amountToken]
      by_cases hc : c = '-'
      · rw [if_pos hc, amountBody_none rest hrest]
        subst hc
        decide
      · rw [if_neg hc, amountBody_none (c :: rest) hcs]
        rfl
  rw [hT]
  rfl

/-- Witness for C8 on the digit-free input "abc". -/
theorem c8_witness :
    extract_amount_only "abc" = "" ∧ (amount_only_search "abc").isSome = true :=
  c8_amended "abc" (by decide)

/- ---------------------------------------------------------------------
   Lemmas for C4: group(2) is a non-empty suffix of a stripped line. -/

theorem dropOpt_suffix (p : Char → Bool) (b : Bool) (r r' : List Char)
    (h : dropOpt p b r = some r') : ∃ q, r = q ++ r' := by
  cases b with
  | false =>
    have h' : some r = some r' := h
    injection h' with e
    exact ⟨[], by rw [e]; rfl⟩
  | true =>
    unfold dropOpt at h
    rw [if_pos rfl] at h
    cases r with
    | nil => cases h
    | cons c cs =>
      have h' : (if p c then some cs else none) = some r' := h
      by_cases hp : p c
      · rw [if_pos hp] at h'
        injection h' with e
        exact ⟨[c], by rw [e]; rfl⟩
      · rw [if_neg hp] at h'
        cases h'

theorem tryConsume_suffix (a b2 c : Bool) (r g : List Char)
    (h : tryConsume a b2 c r = some g) : g ≠ [] ∧ ∃ q, r = q ++ g := by
  unfold tryConsume at h
  rw [Option.bind_eq_some] at h
  obtain ⟨r1, h1, h⟩ := h
  rw [Option.bind_eq_some] at h
  obtain ⟨r2, h2, h⟩ := h
  rw [Option.bind_eq_some] at h
  obtain ⟨r3, h3, h⟩ := h
  by_cases he : r3.isEmpty
  · rw [if_pos he] at h
    cases h
  · rw [if_neg he] at h
    injection h with e
    subst e
    refine ⟨fun hnil => he (by rw [hnil]; rfl), ?_⟩
    obtain ⟨q1, e1⟩ := dropOpt_suffix _ _ _ _ h1
    obtain ⟨q2, e2⟩ := dropOpt_suffix _ _ _ _ h2
    obtain ⟨q3, e3⟩ := dropOpt_suffix _ _ _ _ h3
    exact ⟨q1 ++ (q2 ++ q3), by rw [e1, e2, e3, List.append_assoc, List.append_assoc]⟩

theorem sep2_suffix (r g : List Char) (h : sep2 r = some g) :
    g ≠ [] ∧ ∃ q, r = q ++ g :=
  findSome_forall _ (fun g => g ≠ [] ∧ ∃ q, r = q ++ g)
    (fun b g2 hb => tryConsume_suffix b.1 b.2.1 b.2.2 r g2 hb) sepCombos g h

theorem dropLabel_suffix : ∀ (a l r : List Char), dropLabel a l = some r → ∃ q, l = q ++ r := by
  intro a
  induction a with
  | nil =>
    intro l r h
    injection h with e
    exact ⟨[], by rw [e]; rfl⟩
  | cons x a ih =>
    intro l r h
    cases l with
    | nil => cases h
    | cons c cs =>
      rw [dropLabel] at h
      by_cases hc : c == x
      · rw [if_pos hc] at h
        obtain ⟨q, e⟩ := ih cs r h
        exact ⟨c :: q, by rw [List.cons_append, ← e]⟩
      · rw [if_neg hc] at h
        cases h

theorem searchLabel_suffix (alts : List String) (line : String) (g2 : String)
    (h : searchLabel alts line = some g2) :
    g2.data ≠ [] ∧ ∃ q, line.data = q ++ g2.data := by
  unfold searchLabel at h
  rw [Option.map_eq_some'] at h
  obtain ⟨cs, hfind, hmk⟩ := h
  have hP : cs ≠ [] ∧ ∃ q, line.data = q ++ cs := by
    refine findSome_forall (fun a => tryAlt a line.data)
      (fun cs => cs ≠ [] ∧ ∃ q, line.data = q ++ cs) ?_ alts cs hfind
    intro a b hab
    unfold tryAlt at hab
    rw [Option.bind_eq_some] at hab
    obtain ⟨r, hr, hb⟩ := hab
    obtain ⟨hne, q2, e2⟩ := sep2_suffix r b hb
    obtain ⟨q1, e1⟩ := dropLabel_suffix a.data line.data r hr
    exact ⟨hne, q1 ++ q2, by rw [e1, e2, List.append_assoc]⟩
  rw [← hmk]
  exact hP

theorem mem_of_headq {l : List Char} {d : Char} (h : l.head? = some d) : d ∈ l := by
  cases l with
  | nil => cases h
  | cons c cs =>
    injection h with e
    exact e ▸ List.mem_cons_self c cs

theorem dropWhile_headq_false (p : Char → Bool) (l : List Char) (d : Char)
    (h : (l.dropWhile p).head? = some d) : p d = false := by
  induction l with
  | nil => cases h
  | cons c cs ih =>
    rw [List.dropWhile_cons] at h
    by_cases hp : p c
    · rw [if_pos hp] at h
      exact ih h
    · rw [if_neg hp] at h
      injection h with e
      rw [← e]
      simpa using hp

theorem dropWhile_append_decomp (p : Char → Bool) (l : List Char) :
    ∃ q, l = q ++ l.dropWhile p := by
  induction l with
  | nil => exact ⟨[], rfl⟩
  | cons c cs ih =>
    by_cases hp : p c
    · obtain ⟨q, e⟩ := ih
      refine ⟨c :: q, ?_⟩
      rw [List.dropWhile_cons, if_pos hp, List.cons_append, ← e]
    · refine ⟨[], ?_⟩
      rw [List.dropWhile_cons, if_neg hp]
      rfl

theorem reverse_head_append (x y : List Char) (hx : x ≠ []) :
    (y ++ x).reverse.head? = x.reverse.head? := by
  rw [List.reverse_append]
  cases hrx : x.reverse with
  | nil => exact absurd (by simpa using hrx) hx
  | cons d t => rfl

/-- A list whose last character is not whitespace does not strip to
    empty. -/
theorem pyStripChars_ne_nil (g : List Char) (d : Char)
    (hd : g.reverse.head? = some d) (hsp : isPySpace d = false) :
    pyStripChars g ≠ [] := by
  intro h0
  have h1 : (g.dropWhile isPySpace).reverse.dropWhile isPySpace = [] := by
    have := congrArg List.reverse h0
    simpa [pyStripChars] using this
  have hall : ∀ x ∈ (g.dropWhile isPySpace).reverse, isPySpace x = true :=
    List.dropWhile_eq_nil_iff.mp h1
  obtain ⟨q, hq⟩ := dropWhile_append_decomp isPySpace g
  cases hW : g.dropWhile isPySpace with
  | nil =>
    have hallg : ∀ x ∈ g, isPySpace x = true :=
      List.dropWhile_eq_nil_iff.mp hW
    have hdg : d ∈ g := List.mem_reverse.mp (mem_of_headq hd)
    rw [hallg d hdg] at hsp
    cases hsp
  | cons w ws =>
    have hWne : g.dropWhile isPySpace ≠ [] := by rw [hW]; exact List.cons_ne_nil w ws
    have hrev : g.reverse.head? = (g.dropWhile isPySpace).reverse.head? := by
      conv_lhs => rw [hq]
      exact reverse_head_append _ q hWne
    have hdW : d ∈ (g.dropWhile isPySpace).reverse := by
      apply mem_of_headq
      rw [← hrev]
      exact hd
    rw [hall d hdW] at hsp
    cases hsp

/-- Lines produced by split_text_into_lines are non-empty and their last
    character is not whitespace. -/
theorem split_line_last (text l : String) (h : l ∈ split_text_into_lines text) :
    l ≠ "" ∧ ∀ d, l.data.reverse.head? = some d → isPySpace d = false := by
  unfold split_text_into_lines at h
  rw [List.mem_filter] at h
  obtain ⟨hmap, hne⟩ := h
  rw [List.mem_map] at hmap
  obtain ⟨chunk, _, hchunk⟩ := hmap
  refine ⟨by simpa using hne, ?_⟩
  intro d hd
  have hdata : l.data = pyStripChars chunk := by rw [← hchunk]; rfl
  rw [hdata, pyStripChars, List.reverse_reverse] at hd
  exact dropWhile_headq_false isPySpace _ d hd

/-- C4 amended: the number, type, sender, receiver and note fields of an
    extracted record are never the empty string (group(2) of a matching
    rule is a non-empty suffix of a stripped line); only the date and
    amount fields can hold the empty string, as the counterexample
    shows. -/
theorem c4_amended (text : String) (f : FieldKind)
    (h : f = FieldKind.number ∨ f = FieldKind.ftype ∨ f = FieldKind.sender ∨
      f = FieldKind.receiver ∨ f = FieldKind.note) :
    getField (extract_transaction_data text) f ≠ some "" := by
  rw [extract_transaction_data, getField_foldl]
  cases hl : lastSome ((split_text_into_lines text).filter fun l => classifyLine l = some f) with
  | none => cases f <;> simp [getField, emptyTransactionData]
  | some l =>
    intro hcontra
    have e : ruleValue f l = "" := by injection hcontra
    have hmem := lastSome_mem _ l hl
    rw [List.mem_filter] at hmem
    obtain ⟨hline, hclb⟩ := hmem
    have hcl : classifyLine l = some f := by simpa using hclb
    have hcl' : priorityList.find? (fun g => (searchLabel (altsOf g) l).isSome) = some f := hcl
    have hsome : (searchLabel (altsOf f) l).isSome = true := by
      have := List.find?_some hcl'
      simpa using this
    obtain ⟨g2, hg2⟩ := Option.isSome_iff_exists.mp hsome
    obtain ⟨hg2ne, q, hqe⟩ := searchLabel_suffix (altsOf f) l g2 hg2
    obtain ⟨hlne, hlast⟩ := split_line_last text l hline
    have hval : ruleValue f l = pyStrip g2 := by
      rcases h with rfl | rfl | rfl | rfl | rfl <;>
        simp [ruleValue, normalizeFor, hg2]
    rw [hval] at e
    have e2 : pyStripChars g2.data = [] := by
      have := congrArg String.data e
      simpa [pyStrip] using this
    have hrev : l.data.reverse.head? = g2.data.reverse.head? := by
      rw [hqe]
      exact reverse_head_append g2.data q hg2ne
    cases hdd : g2.data.reverse.head? with
    | none =>
      have hnil : g2.data.reverse = [] := by
        cases hx : g2.data.reverse with
        | nil => rfl
        | cons a t => rw [hx] at hdd; cases hdd
      exact hg2ne (by simpa using hnil)
    | some d =>
      have hdns : isPySpace d = false := hlast d (by rw [hrev, hdd])
      exact pyStripChars_ne_nil g2.data d hdd hdns e2

/-- Witness for C4 at the line "From: A" and the sender field. -/
theorem c4_witness :
    getField (extract_transaction_data "From: A") FieldKind.sender ≠ some "" :=
  c4_amended "From: A" FieldKind.sender (Or.inr (Or.inr (Or.inl rfl)))

/- ---------------------------------------------------------------------
   C5 and C9. -/

theorem foldl_grow {α β : Type} (f : List α → β → List α)
    (hf : ∀ acc u, f acc u = acc ∨ ∃ x, f acc u = acc ++ [x]) :
    ∀ (us : List β) (acc : List α), ∃ tail, us.foldl f acc = acc ++ tail := by
  intro us
  induction us with
  | nil => intro acc; exact ⟨[], by simp⟩
  | cons u us ih =>
    intro acc
    rw [List.foldl_cons]
    rcases hf acc u with he | ⟨x, he⟩
    · rw [he]
      exact ih acc
    · rw [he]
      obtain ⟨tl, e⟩ := ih (acc ++ [x])
      exact ⟨[x] ++ tl, by rw [e, List.append_assoc]⟩

/-- C5 amended: deduplication is against the dataset as of the start of
    the batch run.  An upload whose name is already among the batch-start
    processed files is a silent no-op (the dataset is unchanged and no
    Duplicate result is produced); an upload with a fresh name and
    non-empty text is appended in arrival order; and a run only ever
    appends, so every record present at the start of the run — the first
    ingest of each documentId included — is unaltered. -/
theorem c5_ingest_amended (st : List SessionDetail) (n t : String)
    (us : List (String × Option String)) :
    (n ∈ processed_files st → runBatch st [(n, some t)] = st) ∧
    (n ∉ processed_files st → t ≠ "" →
      runBatch st [(n, some t)] = st ++ [⟨extract_transaction_data t, n⟩]) ∧
    (∃ tail, runBatch st us = st ++ tail) := by
  refine ⟨?_, ?_, ?_⟩
  · intro hmem
    simp [runBatch, List.foldl, hmem]
  · intro hmem ht
    simp [runBatch, List.foldl, hmem, ht]
  · have hstep : ∀ (acc : List SessionDetail) (u : String × Option String),
        (if u.1 ∈ processed_files st then acc
         else
           match u.2 with
           | some t => if t = "" then acc else acc ++ [⟨extract_transaction_data t, u.1⟩]
           | none => acc) = acc ∨
        ∃ x, (if u.1 ∈ processed_files st then acc
         else
           match u.2 with
           | some t => if t = "" then acc else acc ++ [⟨extract_transaction_data t, u.1⟩]
           | none => acc) = acc ++ [x] := by
      intro acc u
      by_cases hm : u.1 ∈ processed_files st
      · left
        rw [if_pos hm]
      · rw [if_neg hm]
        cases hu : u.2 with
        | none => left; rfl
        | some t' =>
          by_cases ht' : t' = ""
          · left
            show (if t' = "" then acc else _) = acc
            rw [if_pos ht']
          · right
            exact ⟨⟨extract_transaction_data t', u.1⟩, by
              show (if t' = "" then acc else _) = _
              rw [if_neg ht']⟩
    exact foldl_grow _ hstep us st

/-- Witness for C5: a duplicate of a pre-batch record is skipped, a
    fresh name is appended. -/
theorem c5_witness :
    runBatch [⟨emptyTransactionData, "a.png"⟩] [("a.png", some "x")] =
      [⟨emptyTransactionData, "a.png"⟩] ∧
    runBatch [] [("b.png", some "From: A")] =
      [] ++ [⟨extract_transaction_data "From: A", "b.png"⟩] :=
  ⟨(c5_ingest_amended [⟨emptyTransactionData, "a.png"⟩] "a.png" "x" []).1 (by decide),
   (c5_ingest_amended [] "b.png" "From: A" []).2.1 (by decide) (by decide)⟩

theorem foldl_skip_eq_sum (l : List (Option ℚ)) :
    ∀ acc : ℚ,
      l.foldl (fun a v => match v with | some q => a + q | none => a) acc =
        acc + (l.filterMap id).sum := by
  induction l with
  | nil => intro acc; simp
  | cons v l ih =>
    intro acc
    rw [List.foldl_cons]
    cases v with
    | none =>
      rw [ih]
      simp [List.filterMap_cons]
    | some q =>
      rw [ih]
      simp [List.filterMap_cons, add_assoc]

theorem parseDecimalParts_dots (l : List Char) (h : ∀ c ∈ l, c = '.') :
    parseDecimalParts (String.mk l) = none := by
  cases l with
  | nil => rfl
  | cons c t =>
    have hc : c = '.' := h c (List.mem_cons_self c t)
    subst hc
    have hsplit : splitAtDot ('.' :: t) = ([], some t) := by
      rw [splitAtDot]
      simp
    show parseDecimalParts (String.mk ('.' :: t)) = none
    unfold parseDecimalParts
    rw [show (String.mk ('.' :: t)).data = '.' :: t from rfl, hsplit]
    cases t with
    | nil => simp
    | cons b t2 =>
      have hb : b = '.' := h b (by simp)
      subst hb
      simp [digitsAll]

theorem to_numeric_digit_free (s : String) (h : ∀ c ∈ s.data, c.isDigit = false) :
    to_numeric (some s) = none := by
  show parseDecimal (cleanAmountStr s) = none
  have hdots : ∀ c ∈ (s.data.filter fun c => c.isDigit || c == '.'), c = '.' := by
    intro c hc
    rw [List.mem_filter] at hc
    obtain ⟨hmem, hp⟩ := hc
    rw [h c hmem] at hp
    simpa using hp
  have hparts : parseDecimalParts (cleanAmountStr s) = none :=
    parseDecimalParts_dots _ hdots
  rw [parseDecimal, hparts]
  rfl

/-- C9: totalAmount is the sum of exactly the non-missing Amount values
    (missing entries are skipped, not counted as zero), the coercion
    maps absent cells and digit-free cells to a missing value, the total
    of an empty dataset is 0, and three records with amounts 100.00,
    absent and 50.00 total 150. -/
theorem c9_total_amount (st : List SessionDetail) (s : String)
    (h : ∀ c ∈ s.data, c.isDigit = false) :
    totalAmount [] = 0 ∧
    totalAmount st = ((amountColumn st).filterMap to_numeric).sum ∧
    to_numeric none = none ∧
    to_numeric (some s) = none ∧
    totalAmount [⟨{ emptyTransactionData with amount := some "100.00" }, "a"⟩,
                 ⟨emptyTransactionData, "b"⟩,
                 ⟨{ emptyTransactionData with amount := some "50.00" }, "c"⟩] = 150 := by
  refine ⟨rfl, ?_, rfl, to_numeric_digit_free s h, ?_⟩
  · rw [totalAmount, foldl_skip_eq_sum, zero_add, List.filterMap_map]
    simp [Function.comp]
  · have e1 : parseDecimalParts (cleanAmountStr "100.00") = some (100, 0, 2) := by decide
    have e2 : parseDecimalParts (cleanAmountStr "50.00") = some (50, 0, 2) := by decide
    have v1 : to_numeric (some "100.00") = some (ratOfParts (100, 0, 2)) := by
      show parseDecimal (cleanAmountStr "100.00") = _
      rw [parseDecimal, e1]
      rfl
    have v2 : to_numeric (some "50.00") = some (ratOfParts (50, 0, 2)) := by
      show parseDecimal (cleanAmountStr "50.00") = _
      rw [parseDecimal, e2]
      rfl
    rw [totalAmount]
    show List.foldl _ 0 [to_numeric (some "100.00"), to_numeric none, to_numeric (some "50.00")]
      = 150
    rw [v1, v2]
    show (0 + ratOfParts (100, 0, 2)) + ratOfParts (50, 0, 2) = 150
    norm_num [ratOfParts]

/-- Witness for C9 at the empty dataset and the digit-free cell "abc". -/
theorem c9_witness :
    totalAmount [] = 0 ∧
    totalAmount [] = ((amountColumn []).filterMap to_numeric).sum ∧
    to_numeric none = none ∧
    to_numeric (some "abc") = none ∧
    totalAmount [⟨{ emptyTransactionData with amount := some "100.00" }, "a"⟩,
                 ⟨emptyTransactionData, "b"⟩,
                 ⟨{ emptyTransactionData with amount := some "50.00" }, "c"⟩] = 150 :=
  c9_total_amount [] "abc" (by decide)
